import Mathlib

/-
Verification of the procedural mesh-generation and topology-stitching engine
(`core/geometry.rs`): height-field face construction (`Face::from_function`),
axis alignment (`rotate_to_axis`), finite-difference normal estimation
(`approximate_normal`), edge stitching and mesh assembly (`Shape3::new`).

Modelling conventions:
* `f32` scalars are modelled by an arbitrary linear ordered field `K`
  (instantiated at `ℚ` for concrete evaluation and at `ℝ` for the claims
  about square roots and trigonometry).  The intrinsically inexact `f32`
  operations (`sqrt`, `sin`, `cos`, the constant `PI`) are supplied by a
  `RealOps` class; at `ℝ` they are the exact real functions.
* `u16` index arithmetic wraps: it is modelled on `Nat` with explicit
  `% 65536` at every operation the source performs on `u16` values, and
  `% 4294967296` where the source computes in `u32` before casting to `u16`.
* Rust `Result<T, E>` is `Except E T`; a Rust panic (out-of-bounds slice
  index, `Option::unwrap` failure) is `Option.none` in an `Option` layer.
-/

namespace Rover

/-- Idealised scalar operations standing in for the `f32` intrinsics used by
the source (`sqrt` from `cgmath::InnerSpace::magnitude`, `sin`/`cos` from
`Matrix3::from_axis_angle`, `std::f32::consts::PI`). -/
class RealOps (K : Type) where
  sqrt : K → K
  sin : K → K
  cos : K → K
  pi : K

/-- At `ℝ` the `f32` intrinsics are modelled by the exact real functions. -/
noncomputable instance : RealOps ℝ :=
  ⟨Real.sqrt, Real.sin, Real.cos, Real.pi⟩

/-- Control-flow-only instance at `ℚ`, used to evaluate the combinatorial
parts of the engine (index bookkeeping), whose behaviour never depends on
these operations. -/
instance : RealOps ℚ :=
  ⟨fun _ => 0, fun _ => 0, fun _ => 0, 0⟩

/-- `cgmath::Vector3<f32>`. -/
@[ext]
structure V3 (K : Type) where
  x : K
  y : K
  z : K
deriving DecidableEq, Repr

variable {K : Type} [LinearOrderedField K]

instance : Add (V3 K) := ⟨fun a b => ⟨a.x + b.x, a.y + b.y, a.z + b.z⟩⟩

instance : Sub (V3 K) := ⟨fun a b => ⟨a.x - b.x, a.y - b.y, a.z - b.z⟩⟩

instance : Neg (V3 K) := ⟨fun a => ⟨-a.x, -a.y, -a.z⟩⟩

instance : SMul K (V3 K) := ⟨fun c a => ⟨c * a.x, c * a.y, c * a.z⟩⟩

/-- `cgmath` dot product. -/
def dot (a b : V3 K) : K := a.x * b.x + a.y * b.y + a.z * b.z

/-- `cgmath` cross product. -/
def cross (a b : V3 K) : V3 K :=
  ⟨a.y * b.z - a.z * b.y, a.z * b.x - a.x * b.z, a.x * b.y - a.y * b.x⟩

/-- `cgmath::InnerSpace::magnitude`: `sqrt (v ∙ v)`. -/
def magnitude [RealOps K] (v : V3 K) : K := RealOps.sqrt (dot v v)

/-- `cgmath::InnerSpace::normalize`: `v * (1 / magnitude v)`. -/
def normalize [RealOps K] (v : V3 K) : V3 K := (1 / magnitude v) • v

/-- `cgmath::Matrix3<f32>`, stored column-major as in the source. -/
structure M3 (K : Type) where
  c0 : V3 K
  c1 : V3 K
  c2 : V3 K
deriving DecidableEq, Repr

/-- `Matrix3::identity()`. -/
def M3.id : M3 K := ⟨⟨1, 0, 0⟩, ⟨0, 1, 0⟩, ⟨0, 0, 1⟩⟩

/-- Matrix–vector multiplication (columns weighted by the vector entries). -/
def M3.mulVec (m : M3 K) (v : V3 K) : V3 K :=
  v.x • m.c0 + v.y • m.c1 + v.z • m.c2

/-- Matrix addition. -/
def M3.add (a b : M3 K) : M3 K := ⟨a.c0 + b.c0, a.c1 + b.c1, a.c2 + b.c2⟩

/-- Matrix multiplication: each column of `a * b` is `a` applied to the
corresponding column of `b`. -/
def M3.mul (a b : M3 K) : M3 K := ⟨a.mulVec b.c0, a.mulVec b.c1, a.mulVec b.c2⟩

/-- Right scalar multiplication `m * s` of a matrix by a scalar. -/
def M3.smul (s : K) (m : M3 K) : M3 K := ⟨s • m.c0, s • m.c1, s • m.c2⟩

/-- `cgmath::Matrix3::from_axis_angle` (entries listed column-major, exactly
as produced by `Matrix3::new` in cgmath). -/
def M3.from_axis_angle [RealOps K] (axis : V3 K) (angle : K) : M3 K :=
  let s := RealOps.sin angle
  let c := RealOps.cos angle
  let m := 1 - c
  ⟨⟨m * axis.x * axis.x + c, m * axis.x * axis.y + s * axis.z,
      m * axis.x * axis.z - s * axis.y⟩,
   ⟨m * axis.x * axis.y - s * axis.z, m * axis.y * axis.y + c,
      m * axis.y * axis.z + s * axis.x⟩,
   ⟨m * axis.x * axis.z + s * axis.y, m * axis.y * axis.z - s * axis.x,
      m * axis.z * axis.z + c⟩⟩

/-- `get_orthogonal` from `geometry.rs`. -/
def get_orthogonal (original : V3 K) : V3 K :=
  ⟨original.y + original.z, original.z - original.x, -original.x - original.y⟩

/-- `rotate_to_axis` from `geometry.rs`: rotation matrix mapping `original`
onto `axis`, with the antipodal and identity special cases, otherwise
Rodrigues' formula. -/
def rotate_to_axis [RealOps K] [DecidableEq K] (axis original : V3 K) : M3 K :=
  let axis := normalize axis
  let original := normalize original
  if axis = -original then
    let orthogonal := normalize (get_orthogonal original)
    M3.from_axis_angle (cross original orthogonal) (RealOps.pi : K)
  else if axis = original then
    M3.id
  else
    let v := cross original axis
    let s := magnitude v
    let c := dot original axis
    let v_x : M3 K := ⟨⟨0, v.z, -v.y⟩, ⟨-v.z, 0, v.x⟩, ⟨v.y, -v.x, 0⟩⟩
    M3.add (M3.add M3.id v_x) (M3.smul ((1 - c) / (s * s)) (M3.mul v_x v_x))

/-- The step constant `H = 1e-04` from `geometry.rs`. -/
def Hstep : K := 1 / 10000

/-- The `dy_dx` estimate inside `approximate_normal`:
`(f (x + H/2) z - f (x - H/2) z) / (2 * H)`. -/
def dy_dx (f : K → K → K) (p : K × K) : K :=
  let dx := (Hstep : K) / 2
  (f (p.1 + dx) p.2 - f (p.1 - dx) p.2) / (2 * Hstep)

/-- The `dy_dz` estimate inside `approximate_normal`:
`(f x (z + H/2) - f x (z - H/2)) / (2 * H)`. -/
def dy_dz (f : K → K → K) (p : K × K) : K :=
  let dz := (Hstep : K) / 2
  (f p.1 (p.2 + dz) - f p.1 (p.2 - dz)) / (2 * Hstep)

/-- `approximate_normal` from `geometry.rs`:
`grad_dx.cross(-grad_dz).normalize()`. -/
def approximate_normal [RealOps K] (f : K → K → K) (p : K × K) : V3 K :=
  let grad_dx : V3 K := ⟨1, dy_dx f p, 0⟩
  let grad_dz : V3 K := ⟨0, dy_dz f p, 1⟩
  normalize (cross grad_dx (-grad_dz))

/-- `render::vertex::Vertex`. -/
structure Vertex (K : Type) where
  position : V3 K
  normal : V3 K
  tex_coords : K × K
deriving DecidableEq, Repr

/-- `Face` from `geometry.rs`: local vertices, local triangle indices and the
four border loops.  Indices are `u16` in the source; they are carried as
`Nat` values that are always reduced `% 65536` where the source computes. -/
structure Face (K : Type) where
  vertices : List (Vertex K)
  indices : List Nat
  edge_px : List Nat
  edge_nx : List Nat
  edge_pz : List Nat
  edge_nz : List Nat
deriving DecidableEq, Repr

/-- `Face::new`. -/
def Face.mkFace (y_up_vertices : List (Vertex K)) (indices edge_px edge_nx
    edge_pz edge_nz : List Nat) : Face K :=
  ⟨y_up_vertices, indices, edge_px, edge_nx, edge_pz, edge_nz⟩

/-- The error value of `Face::from_function`.  The source returns
`Err(format!(...))`, a string interpolating the offending domains, the
resolution and the two computed vertex counts; since `f32` formatting is not
representable here, the error is modelled structurally as exactly that
diagnostic payload. -/
structure FaceError (K : Type) where
  domain_x : K × K
  domain_z : K × K
  resolution : K × K
  n_x : Nat
  n_z : Nat
deriving DecidableEq, Repr

/-- Floored vertex count along one axis:
`((domain.1 - domain.0) * resolution).floor() as u32`.  (`as u32` maps
negative values to `0`, as `Int.toNat` does.) -/
def axisCount [FloorRing K] (domain : K × K) (resolution : K) : Nat :=
  (⌊(domain.2 - domain.1) * resolution⌋).toNat

/-- Accumulator of the vertex/index generation loop in `Face::from_function`:
the four edge loops, the triangle indices, the vertices and the `v_up`
toggle. -/
structure FaceBuild (K : Type) where
  vertices : List (Vertex K)
  indices : List Nat
  edge_px : List Nat
  edge_nx : List Nat
  edge_pz : List Nat
  edge_nz : List Nat
  v_up : Bool
deriving DecidableEq, Repr

/-- `this_index = i as u16 + k as u16 * n_x as u16` (`u16` wrapping
arithmetic). -/
def thisIndex (n_x k i : Nat) : Nat :=
  (i % 65536 + (k % 65536) * (n_x % 65536)) % 65536

/-- The "up-right" triangle corner `((i + 1) + (k - 1) * n_x) as u16`
(computed in `u32`, then cast to `u16`). -/
def upRightIndex (n_x k i : Nat) : Nat :=
  ((i + 1) + (k - 1) * n_x) % 4294967296 % 65536

/-- The "up" triangle corner `(i + (k - 1) * n_x) as u16`. -/
def upIndex (n_x k i : Nat) : Nat :=
  (i + (k - 1) * n_x) % 4294967296 % 65536

/-- The "left" triangle corner `((i - 1) + k * n_x) as u16`.  The truncated
`i - 1` only occurs on a branch the source reaches with `i ≥ 1`. -/
def leftIndex (n_x k i : Nat) : Nat :=
  ((i - 1) + k * n_x) % 4294967296 % 65536

/-- The "add indices if possible" block of the inner loop of
`Face::from_function`: the triangle indices pushed at cell `(i, k)` (in push
order) together with the updated `v_up` toggle. -/
def cellTriangles (n_x k i : Nat) (v_up : Bool) : List Nat × Bool :=
  if 0 < k then
    if v_up ∧ i ≠ n_x - 1 then
      ([upRightIndex n_x k i, upIndex n_x k i, thisIndex n_x k i], false)
    else if ¬ v_up then
      if i ≠ n_x - 1 then
        ([leftIndex n_x k i, thisIndex n_x k i, upIndex n_x k i,
          upRightIndex n_x k i, upIndex n_x k i, thisIndex n_x k i], false)
      else
        ([leftIndex n_x k i, thisIndex n_x k i, upIndex n_x k i], true)
    else
      ([], v_up)
  else
    ([], v_up)

/-- The body of the inner loop of `Face::from_function` for cell `(i, k)`:
push the vertex, classify it onto the border loops (`edge_px`/`edge_nz` via
`insert(0, ·)`, i.e. cons; `edge_nx`/`edge_pz` via `push`, i.e. append), and
append this cell's triangles.  `v i k` is the vertex pushed for the cell (its
value plays no role in the index bookkeeping). -/
def faceCell (n_x n_z : Nat) (v : Nat → Nat → Vertex K) (k i : Nat)
    (st : FaceBuild K) : FaceBuild K :=
  let t := cellTriangles n_x k i st.v_up
  { vertices := st.vertices ++ [v i k]
    indices := st.indices ++ t.1
    edge_px := if i = n_x - 1 then thisIndex n_x k i :: st.edge_px else st.edge_px
    edge_nx := if i = 0 then st.edge_nx ++ [thisIndex n_x k i] else st.edge_nx
    edge_pz := if k = n_z - 1 then st.edge_pz ++ [thisIndex n_x k i] else st.edge_pz
    edge_nz := if k = 0 then thisIndex n_x k i :: st.edge_nz else st.edge_nz
    v_up := t.2 }

/-- One row (`k` fixed, `i` over `0..n_x`) of the generation loop, followed by
the `v_up = true` reset the source performs after each row. -/
def faceRow (n_x n_z : Nat) (v : Nat → Nat → Vertex K) (st : FaceBuild K)
    (k : Nat) : FaceBuild K :=
  { (List.range n_x).foldl (fun st i => faceCell n_x n_z v k i st) st with
    v_up := true }

/-- The full generation loop (`k` over `0..n_z`), starting from empty
accumulators and `v_up = true`. -/
def faceGrid (n_x n_z : Nat) (v : Nat → Nat → Vertex K) : FaceBuild K :=
  (List.range n_z).foldl (faceRow n_x n_z v) ⟨[], [], [], [], [], [], true⟩

/-- The vertex built for cell `(i, k)` in `Face::from_function`:
`position = final_rotation * (x, 0, z) + y * up`,
`normal = final_rotation * approximate_normal(height, (x, z))`,
`tex_coords = ((x - x0) / length_x, (z - z0) / length_z)`. -/
def faceVertex [RealOps K] (up : V3 K) (final_rotation : M3 K)
    (domain_x domain_z : K × K) (length_x length_z dx dz : K)
    (height : K → K → K) (i k : Nat) : Vertex K :=
  let x := domain_x.1 + (i : K) * dx
  let z := domain_z.1 + (k : K) * dz
  let y := height x z
  let position := final_rotation.mulVec ⟨x, 0, z⟩ + y • up
  let normal := final_rotation.mulVec (approximate_normal height (x, z))
  ⟨position, normal, ((x - domain_x.1) / length_x, (z - domain_z.1) / length_z)⟩

/-- The successful branch of `Face::from_function` (reached when both
floored vertex counts are nonzero): spacing correction, axis rotation and
the generation loop.  All quantities are computed exactly as in the source
(which computes them before the zero-count check; they are pure, so the
split is sound). -/
def buildFace [RealOps K] [FloorRing K] [DecidableEq K] (up : V3 K)
    (domain_x domain_z : K × K) (resolution : K × K) (height : K → K → K) :
    Face K :=
  let up := normalize up
  let length_x := domain_x.2 - domain_x.1
  let length_z := domain_z.2 - domain_z.1
  let e_x := length_x * resolution.1
  let e_z := length_z * resolution.2
  let n_x := axisCount domain_x resolution.1
  let n_z := axisCount domain_z resolution.2
  let extra_x := (e_x - (n_x : K)) * resolution.1
  let extra_z := (e_z - (n_z : K)) * resolution.2
  let correction_x := extra_x / ((n_x - 1 : Nat) : K)
  let correction_z := extra_z / ((n_z - 1 : Nat) : K)
  let dx := length_x / ((n_x - 1 : Nat) : K) + correction_x
  let dz := length_z / ((n_z - 1 : Nat) : K) + correction_z
  let final_rotation := rotate_to_axis up ⟨0, 1, 0⟩
  let st := faceGrid n_x n_z
    (faceVertex up final_rotation domain_x domain_z length_x length_z dx dz height)
  ⟨st.vertices, st.indices, st.edge_px, st.edge_nx, st.edge_pz, st.edge_nz⟩

/-- `Face::from_function` from `geometry.rs`. -/
def Face.from_function [RealOps K] [FloorRing K] [DecidableEq K] (up : V3 K)
    (domain_x domain_z : K × K) (resolution : K × K) (height : K → K → K) :
    Except (FaceError K) (Face K) :=
  let n_x := axisCount domain_x resolution.1
  let n_z := axisCount domain_z resolution.2
  if n_x = 0 ∨ n_z = 0 then
    .error ⟨domain_x, domain_z, resolution, n_x, n_z⟩
  else
    .ok (buildFace up domain_x domain_z resolution height)

/-- `EdgeJoin` from `geometry.rs`.  The edge entries are `u16` values carried
as `Nat`; the face indices are `usize`. -/
structure EdgeJoin where
  edge_lower : List Nat
  lower_face_index : Nat
  edge_higher : List Nat
  higher_face_index : Nat
deriving DecidableEq, Repr

/-- `EdgeJoin::new`: rejects a join whose two loops belong to the same
face. -/
def EdgeJoin.mkJoin (edge_lower : List Nat) (lower_face_index : Nat)
    (edge_higher : List Nat) (higher_face_index : Nat) :
    Except String EdgeJoin :=
  if lower_face_index = higher_face_index then
    .error "Edges belong to the same face"
  else
    .ok ⟨edge_lower, lower_face_index, edge_higher, higher_face_index⟩

/-- `Shape3` from `geometry.rs`: the assembled mesh. -/
structure Shape3 (K : Type) where
  vertices : List (Vertex K)
  indices : List Nat
deriving DecidableEq, Repr

/-- State of the face-merging pass of `Shape3::new`: `face_index_start`, the
global vertex and index buffers, and the running `u16` offset `start`. -/
structure MergeState (K : Type) where
  face_index_start : List Nat
  vertices : List (Vertex K)
  indices : List Nat
  start : Nat
deriving DecidableEq, Repr

/-- One iteration of the face-merging loop of `Shape3::new`: record this
face's starting offset, append its vertices, append its indices offset by
`start` (`u16` addition, hence `% 65536`), and advance `start` by the vertex
count cast to `u16` (wrapping `u16` addition). -/
def mergeStep (st : MergeState K) (face : Face K) : MergeState K :=
  { face_index_start := st.face_index_start ++ [st.start],
    vertices := st.vertices ++ face.vertices,
    indices := st.indices ++ face.indices.map (fun index => (index + st.start) % 65536),
    start := (st.start + face.vertices.length % 65536) % 65536 }

/-- The face-merging loop of `Shape3::new`. -/
def mergeFaces (faces : List (Face K)) : MergeState K :=
  faces.foldl mergeStep ⟨[], [], [], 0⟩

/-- State of the two-pointer stitching loop of `Shape3::new` for one join:
the pointers `i`, `j`, the `i_up` flag, and the triangle indices emitted so
far for this join. -/
structure StitchState where
  i : Nat
  j : Nat
  i_up : Bool
  acc : List Nat
deriving DecidableEq, Repr

/-- The "join" block of the stitching loop: when `i + j > 0`, emit the
triangle `(h_idx, l_idx, prev)` where `prev` is `lower[i-1]` (if the previous
step advanced `i`) or `higher[j-1]` (otherwise), translated through the face
offsets in `u16` arithmetic; on the first step, emit nothing. -/
def stitchTri (s_l s_h : Nat) (join : EdgeJoin) (st : StitchState)
    (l_idx h_idx : Nat) : Option (List Nat) :=
  if 0 < st.i + st.j then
    if st.i_up then do
      let e_lp ← join.edge_lower[st.i - 1]?
      pure (st.acc ++ [h_idx, l_idx, (s_l + e_lp) % 65536])
    else do
      let e_hp ← join.edge_higher[st.j - 1]?
      pure (st.acc ++ [h_idx, l_idx, (s_h + e_hp) % 65536])
  else
    pure st.acc

/-- The "determine what counter to advance" block of the stitching loop:
boundary cases first, otherwise the greedy comparison
`(v_i - v_j_next).magnitude() <= (v_j - v_i_next).magnitude()` (the
`.get(..).unwrap()` lookups of the next vertices are `Option` lookups). -/
def stitchAdvance [RealOps K] (vertices : List (Vertex K)) (join : EdgeJoin)
    (st : StitchState) (s_l s_h : Nat) (v_i v_j : Vertex K) (acc : List Nat) :
    Option StitchState :=
  if st.i = join.edge_lower.length - 1 then
    pure ⟨st.i, st.j + 1, false, acc⟩
  else if st.j = join.edge_higher.length - 1 then
    pure ⟨st.i + 1, st.j, true, acc⟩
  else
    match join.edge_lower[st.i + 1]?, join.edge_higher[st.j + 1]? with
    | some e_ln, some e_hn =>
      match vertices[(s_l + e_ln) % 65536]?, vertices[(s_h + e_hn) % 65536]? with
      | some v_i_next, some v_j_next =>
        if magnitude (v_i.position - v_j_next.position) ≤
            magnitude (v_j.position - v_i_next.position) then
          pure ⟨st.i, st.j + 1, false, acc⟩
        else
          pure ⟨st.i + 1, st.j, true, acc⟩
      | _, _ => none
    | _, _ => none

/-- One iteration of the stitching loop of `Shape3::new`.  Every slice index
and `Option::unwrap` of the source is a fallible lookup, so a Rust panic is
`none`; as all lookups are pure, sequential `?`-binds are modelled by
simultaneous matches (any failed lookup gives `none` either way).  `u16`
additions reduce `% 65536`. -/
def stitchStep [RealOps K] (face_index_start : List Nat)
    (vertices : List (Vertex K)) (join : EdgeJoin) (st : StitchState) :
    Option StitchState :=
  match face_index_start[join.lower_face_index]?, join.edge_lower[st.i]?,
      face_index_start[join.higher_face_index]?, join.edge_higher[st.j]? with
  | some s_l, some e_l, some s_h, some e_h =>
    match vertices[(s_l + e_l) % 65536]?, vertices[(s_h + e_h) % 65536]? with
    | some v_i, some v_j =>
      (stitchTri s_l s_h join st ((s_l + e_l) % 65536) ((s_h + e_h) % 65536)).bind
        (stitchAdvance vertices join st s_l s_h v_i v_j)
    | _, _ => none
  | _, _, _, _ => none

/-- `fuel` iterations of the stitching loop. -/
def stitchRun [RealOps K] (face_index_start : List Nat)
    (vertices : List (Vertex K)) (join : EdgeJoin) :
    Nat → StitchState → Option StitchState
  | 0, st => some st
  | fuel + 1, st => do
    let st' ← stitchStep face_index_start vertices join st
    stitchRun face_index_start vertices join fuel st'

/-- Processing of a single join inside `Shape3::new`: the empty-loop check,
then `l_n + h_n - 1` iterations of the stitching loop from `(i, j) = (0, 0)`
with `i_up = false`.  Returns the triangle indices this join appends to the
global index buffer (`none` models a panic). -/
def runJoin [RealOps K] (face_index_start : List Nat)
    (vertices : List (Vertex K)) (join : EdgeJoin) :
    Option (Except String (List Nat)) :=
  if join.edge_higher.isEmpty ∨ join.edge_lower.isEmpty then
    some (.error "Received empty edge in EdgeJoin")
  else
    match stitchRun face_index_start vertices join
        (join.edge_lower.length + join.edge_higher.length - 1) ⟨0, 0, false, []⟩ with
    | none => none
    | some st => some (.ok st.acc)

/-- The join loop of `Shape3::new`, appending each join's stitching triangles
to the accumulated global index buffer.  An `Err` propagates out of
`Shape3::new`; a panic is `none`. -/
def joinsRun [RealOps K] (face_index_start : List Nat)
    (vertices : List (Vertex K)) :
    List EdgeJoin → List Nat → Option (Except String (List Nat))
  | [], acc => some (.ok acc)
  | join :: rest, acc =>
    match runJoin face_index_start vertices join with
    | none => none
    | some (.error e) => some (.error e)
    | some (.ok t) => joinsRun face_index_start vertices rest (acc ++ t)

/-- `Shape3::new` from `geometry.rs`: merge all faces, then stitch all
joins. -/
def Shape3.new [RealOps K] (faces : List (Face K)) (face_joins : List EdgeJoin) :
    Option (Except String (Shape3 K)) :=
  let st := mergeFaces faces
  match joinsRun st.face_index_start st.vertices face_joins st.indices with
  | none => none
  | some (.error e) => some (.error e)
  | some (.ok indices) => some (.ok ⟨st.vertices, indices⟩)

/-! ### Helper lemmas about the face-generation loop -/

theorem foldl_preserve {α σ : Type _} (P : σ → Prop) (f : σ → α → σ) :
    ∀ (l : List α) (s : σ), (∀ s a, a ∈ l → P s → P (f s a)) → P s → P (l.foldl f s)
  | [], _, _, hs => hs
  | a :: l, s, h, hs =>
    foldl_preserve P f l (f s a) (fun s b hb => h s b (List.mem_cons_of_mem a hb))
      (h s a (List.mem_cons_self a l) hs)

theorem cellBound {a b n_x n_z : Nat} (ha : a < n_x) (hb : b < n_z) :
    a + b * n_x < n_x * n_z := by
  calc a + b * n_x < n_x + b * n_x := by omega
    _ = (b + 1) * n_x := by ring
    _ ≤ n_z * n_x := Nat.mul_le_mul_right _ (by omega)
    _ = n_x * n_z := Nat.mul_comm _ _

theorem castBound {raw b : Nat} (h : raw < b) : raw % 4294967296 % 65536 < b :=
  lt_of_le_of_lt (le_trans (Nat.mod_le _ _) (Nat.mod_le _ _)) h

theorem thisIndex_lt {n_x n_z k i : Nat} (hi : i < n_x) (hk : k < n_z) :
    thisIndex n_x k i < n_x * n_z := by
  have h1 : i % 65536 ≤ i := Nat.mod_le _ _
  have h2 : (k % 65536) * (n_x % 65536) ≤ k * n_x :=
    Nat.mul_le_mul (Nat.mod_le _ _) (Nat.mod_le _ _)
  exact lt_of_le_of_lt
    (le_trans (Nat.mod_le _ _) (Nat.add_le_add h1 h2)) (cellBound hi hk)

theorem upRightIndex_lt {n_x n_z k i : Nat} (hi : i < n_x) (hne : i ≠ n_x - 1)
    (hk : k < n_z) : upRightIndex n_x k i < n_x * n_z :=
  castBound (cellBound (by omega) (by omega))

theorem upIndex_lt {n_x n_z k i : Nat} (hi : i < n_x) (hk : k < n_z) :
    upIndex n_x k i < n_x * n_z :=
  castBound (cellBound hi (by omega))

theorem leftIndex_lt {n_x n_z k i : Nat} (hi : i < n_x) (hk : k < n_z) :
    leftIndex n_x k i < n_x * n_z :=
  castBound (cellBound (by omega) hk)

/-- All triangle indices and border-loop indices accumulated so far are below
the bound `b`. -/
def FaceBuild.Bounded (st : FaceBuild K) (b : Nat) : Prop :=
  (∀ e ∈ st.indices, e < b) ∧ (∀ e ∈ st.edge_px, e < b) ∧
  (∀ e ∈ st.edge_nx, e < b) ∧ (∀ e ∈ st.edge_pz, e < b) ∧
  (∀ e ∈ st.edge_nz, e < b)

theorem cellTriangles_mem {n_x k i : Nat} {v_up : Bool} {e : Nat}
    (he : e ∈ (cellTriangles n_x k i v_up).1) :
    e = thisIndex n_x k i ∨ e = upIndex n_x k i ∨ e = leftIndex n_x k i ∨
      (e = upRightIndex n_x k i ∧ i ≠ n_x - 1) := by
  unfold cellTriangles at he
  split at he
  · split at he
    · rename_i h
      simp only [List.mem_cons, List.not_mem_nil, or_false] at he
      rcases he with h1 | h1 | h1 <;> simp [h1, h.2]
    · split at he
      · split at he
        · rename_i h
          simp only [List.mem_cons, List.not_mem_nil, or_false] at he
          rcases he with h1 | h1 | h1 | h1 | h1 | h1 <;> simp [h1, h]
        · simp only [List.mem_cons, List.not_mem_nil, or_false] at he
          rcases he with h1 | h1 | h1 <;> simp [h1]
      · simp at he
  · simp at he

theorem faceCell_bounded {n_x n_z : Nat} {v : Nat → Nat → Vertex K} {k i : Nat}
    {st : FaceBuild K} (hi : i < n_x) (hk : k < n_z)
    (h : st.Bounded (n_x * n_z)) :
    (faceCell n_x n_z v k i st).Bounded (n_x * n_z) := by
  obtain ⟨hidx, hpx, hnx, hpz, hnz⟩ := h
  have hthis : thisIndex n_x k i < n_x * n_z := thisIndex_lt hi hk
  refine ⟨?_, ?_, ?_, ?_, ?_⟩ <;> simp only [faceCell]
  · intro e he
    rcases List.mem_append.1 he with h1 | h1
    · exact hidx e h1
    · rcases cellTriangles_mem h1 with h2 | h2 | h2 | ⟨h2, h3⟩
      · exact h2 ▸ hthis
      · exact h2 ▸ upIndex_lt hi hk
      · exact h2 ▸ leftIndex_lt hi hk
      · exact h2 ▸ upRightIndex_lt hi h3 hk
  · intro e he
    split at he
    · rcases List.mem_cons.1 he with h1 | h1
      · exact h1 ▸ hthis
      · exact hpx e h1
    · exact hpx e he
  · intro e he
    split at he
    · rcases List.mem_append.1 he with h1 | h1
      · exact hnx e h1
      · simp only [List.mem_singleton] at h1; exact h1 ▸ hthis
    · exact hnx e he
  · intro e he
    split at he
    · rcases List.mem_append.1 he with h1 | h1
      · exact hpz e h1
      · simp only [List.mem_singleton] at h1; exact h1 ▸ hthis
    · exact hpz e he
  · intro e he
    split at he
    · rcases List.mem_cons.1 he with h1 | h1
      · exact h1 ▸ hthis
      · exact hnz e h1
    · exact hnz e he

theorem faceRow_bounded {n_x n_z : Nat} {v : Nat → Nat → Vertex K} {k : Nat}
    {st : FaceBuild K} (hk : k < n_z) (h : st.Bounded (n_x * n_z)) :
    (faceRow n_x n_z v st k).Bounded (n_x * n_z) := by
  have h2 : ((List.range n_x).foldl (fun st i => faceCell n_x n_z v k i st) st).Bounded
      (n_x * n_z) := by
    refine foldl_preserve (fun s => FaceBuild.Bounded s (n_x * n_z))
      (fun st i => faceCell n_x n_z v k i st) (List.range n_x) st ?_ h
    intro s a ha hs
    exact faceCell_bounded (List.mem_range.1 ha) hk hs
  exact h2

theorem faceGrid_bounded (n_x n_z : Nat) (v : Nat → Nat → Vertex K) :
    (faceGrid n_x n_z v).Bounded (n_x * n_z) := by
  refine foldl_preserve (fun s => FaceBuild.Bounded s (n_x * n_z))
    (faceRow n_x n_z v) (List.range n_z) _ ?_ ?_
  · intro s a ha hs
    exact faceRow_bounded (List.mem_range.1 ha) hs
  · exact ⟨by simp, by simp, by simp, by simp, by simp⟩

theorem faceCell_vertices {n_x n_z : Nat} (v : Nat → Nat → Vertex K) (k i : Nat)
    (st : FaceBuild K) :
    (faceCell n_x n_z v k i st).vertices = st.vertices ++ [v i k] := rfl

theorem foldl_cell_vertices_length {n_x n_z : Nat} {v : Nat → Nat → Vertex K}
    {k : Nat} : ∀ (l : List Nat) (st : FaceBuild K),
    ((l.foldl (fun st i => faceCell n_x n_z v k i st) st).vertices).length =
      st.vertices.length + l.length
  | [], _ => rfl
  | a :: l, st => by
    rw [List.foldl_cons, foldl_cell_vertices_length l, faceCell_vertices]
    simp; omega

theorem faceRow_vertices_length {n_x n_z : Nat} (v : Nat → Nat → Vertex K)
    (st : FaceBuild K) (k : Nat) :
    (faceRow n_x n_z v st k).vertices.length = st.vertices.length + n_x := by
  show ((List.range n_x).foldl (fun st i => faceCell n_x n_z v k i st) st).vertices.length
    = st.vertices.length + n_x
  rw [foldl_cell_vertices_length, List.length_range]

theorem foldl_row_vertices_length {n_x n_z : Nat} {v : Nat → Nat → Vertex K} :
    ∀ (l : List Nat) (st : FaceBuild K),
    ((l.foldl (faceRow n_x n_z v) st).vertices).length =
      st.vertices.length + l.length * n_x
  | [], _ => by simp
  | a :: l, st => by
    rw [List.foldl_cons, foldl_row_vertices_length l, faceRow_vertices_length]
    simp [Nat.succ_mul]; omega

theorem faceGrid_vertices_length (n_x n_z : Nat) (v : Nat → Nat → Vertex K) :
    (faceGrid n_x n_z v).vertices.length = n_x * n_z := by
  unfold faceGrid
  rw [foldl_row_vertices_length, List.length_range]
  simp [Nat.mul_comm]

theorem cellTriangles_one_wide (k : Nat) : cellTriangles 1 k 0 true = ([], true) := by
  unfold cellTriangles
  split
  · simp
  · rfl

theorem faceCell_one_wide {n_z : Nat} (v : Nat → Nat → Vertex K) (k : Nat)
    (st : FaceBuild K) (h : st.v_up = true) :
    (faceCell 1 n_z v k 0 st).indices = st.indices ∧
      (faceCell 1 n_z v k 0 st).v_up = true := by
  constructor
  · simp [faceCell, h, cellTriangles_one_wide]
  · simp [faceCell, h, cellTriangles_one_wide]

theorem faceRow_one_wide {n_z : Nat} (v : Nat → Nat → Vertex K) (k : Nat)
    (st : FaceBuild K) (h : st.v_up = true) :
    (faceRow 1 n_z v st k).indices = st.indices ∧
      (faceRow 1 n_z v st k).v_up = true := by
  have hrange : List.range 1 = [0] := rfl
  constructor
  · show ((List.range 1).foldl (fun st i => faceCell 1 n_z v k i st) st).indices = _
    rw [hrange]
    simpa using (faceCell_one_wide v k st h).1
  · rfl

theorem faceGrid_one_wide (n_z : Nat) (v : Nat → Nat → Vertex K) :
    (faceGrid 1 n_z v).indices = [] := by
  have : ∀ (l : List Nat) (st : FaceBuild K), st.v_up = true →
      ((l.foldl (faceRow 1 n_z v) st).indices = st.indices ∧
        (l.foldl (faceRow 1 n_z v) st).v_up = true) := by
    intro l
    induction l with
    | nil => intro st h; exact ⟨rfl, h⟩
    | cons a l ih =>
      intro st h
      rw [List.foldl_cons]
      obtain ⟨h1, h2⟩ := faceRow_one_wide v a st h
      obtain ⟨h3, h4⟩ := ih _ h2
      exact ⟨h3.trans h1, h4⟩
  exact (this (List.range n_z) _ rfl).1

/-! ### Claim theorems: Face construction -/

theorem from_function_eq_error [RealOps K] [FloorRing K] [DecidableEq K]
    {up : V3 K} {domain_x domain_z resolution : K × K} {height : K → K → K}
    (h : axisCount domain_x resolution.1 = 0 ∨ axisCount domain_z resolution.2 = 0) :
    Face.from_function up domain_x domain_z resolution height =
      .error ⟨domain_x, domain_z, resolution, axisCount domain_x resolution.1,
        axisCount domain_z resolution.2⟩ := by
  simp only [Face.from_function, if_pos h]

theorem from_function_eq_ok [RealOps K] [FloorRing K] [DecidableEq K]
    {up : V3 K} {domain_x domain_z resolution : K × K} {height : K → K → K}
    (h1 : axisCount domain_x resolution.1 ≠ 0)
    (h2 : axisCount domain_z resolution.2 ≠ 0) :
    Face.from_function up domain_x domain_z resolution height =
      .ok (buildFace up domain_x domain_z resolution height) := by
  simp only [Face.from_function, h1, h2, or_self, if_false]

theorem from_function_ok_elim [RealOps K] [FloorRing K] [DecidableEq K]
    {up : V3 K} {domain_x domain_z resolution : K × K} {height : K → K → K}
    {f : Face K}
    (h : Face.from_function up domain_x domain_z resolution height = .ok f) :
    axisCount domain_x resolution.1 ≠ 0 ∧ axisCount domain_z resolution.2 ≠ 0 ∧
      f = buildFace up domain_x domain_z resolution height := by
  by_cases hc : axisCount domain_x resolution.1 = 0 ∨ axisCount domain_z resolution.2 = 0
  · rw [from_function_eq_error hc] at h
    exact absurd h (by simp)
  · push_neg at hc
    rw [from_function_eq_ok hc.1 hc.2] at h
    exact ⟨hc.1, hc.2, (Except.ok.injEq .. ▸ h).symm⟩

/-- **C4**: `Face::from_function` returns an error iff at least one floored
vertex count (`axisCount`) is zero, and the error carries the offending
domains, resolution and vertex counts; for all other inputs it returns
`Ok`. -/
theorem from_function_error_characterisation [RealOps K] [FloorRing K]
    [DecidableEq K] (up : V3 K) (domain_x domain_z resolution : K × K)
    (height : K → K → K) :
    (axisCount domain_x resolution.1 = 0 ∨ axisCount domain_z resolution.2 = 0 →
      Face.from_function up domain_x domain_z resolution height =
        .error ⟨domain_x, domain_z, resolution, axisCount domain_x resolution.1,
          axisCount domain_z resolution.2⟩) ∧
    (axisCount domain_x resolution.1 ≠ 0 → axisCount domain_z resolution.2 ≠ 0 →
      ∃ f, Face.from_function up domain_x domain_z resolution height = .ok f) :=
  ⟨fun h => from_function_eq_error h,
   fun h1 h2 => ⟨_, from_function_eq_ok h1 h2⟩⟩

/-- Witness for C4 at `ℚ`: resolution `1/2` on a unit interval floors to `0`
vertices (error); resolution `2` gives a `2 × 2` face (ok). -/
theorem from_function_error_characterisation_witness :
    Face.from_function (⟨0, 1, 0⟩ : V3 ℚ) ((0 : ℚ), 1) ((0 : ℚ), 1)
        ((1 : ℚ)/2, 2) (fun _ _ => 0) =
      .error ⟨((0 : ℚ), 1), ((0 : ℚ), 1), ((1 : ℚ)/2, 2), 0, 2⟩ ∧
    ∃ f, Face.from_function (⟨0, 1, 0⟩ : V3 ℚ) ((0 : ℚ), 1) ((0 : ℚ), 1)
        ((2 : ℚ), 2) (fun _ _ => 0) = .ok f := by
  constructor
  · rw [(from_function_error_characterisation (⟨0, 1, 0⟩ : V3 ℚ) ((0 : ℚ), 1)
      ((0 : ℚ), 1) ((1 : ℚ)/2, 2) (fun _ _ => 0)).1 (by norm_num [axisCount])]
    norm_num [axisCount]
    decide
  · exact (from_function_error_characterisation (⟨0, 1, 0⟩ : V3 ℚ) ((0 : ℚ), 1)
      ((0 : ℚ), 1) ((2 : ℚ), 2) (fun _ _ => 0)).2 (by norm_num [axisCount])
      (by norm_num [axisCount])

/-- **C1**: whenever `Face::from_function` accepts its input (returns `Ok`),
the face has `n_x * n_z` vertices and every entry of its triangle index list
and of its four border loops is strictly below `vertices.len()`. -/
theorem from_function_indices_lt [RealOps K] [FloorRing K] [DecidableEq K]
    {up : V3 K} {domain_x domain_z resolution : K × K} {height : K → K → K}
    {f : Face K}
    (h : Face.from_function up domain_x domain_z resolution height = .ok f) :
    f.vertices.length =
      axisCount domain_x resolution.1 * axisCount domain_z resolution.2 ∧
    (∀ e ∈ f.indices, e < f.vertices.length) ∧
    (∀ e ∈ f.edge_px, e < f.vertices.length) ∧
    (∀ e ∈ f.edge_nx, e < f.vertices.length) ∧
    (∀ e ∈ f.edge_pz, e < f.vertices.length) ∧
    (∀ e ∈ f.edge_nz, e < f.vertices.length) := by
  obtain ⟨h1, h2, rfl⟩ := from_function_ok_elim h
  have hlen : (buildFace up domain_x domain_z resolution height).vertices.length =
      axisCount domain_x resolution.1 * axisCount domain_z resolution.2 :=
    faceGrid_vertices_length _ _ _
  refine ⟨hlen, ?_, ?_, ?_, ?_, ?_⟩ <;> rw [hlen]
  · exact (faceGrid_bounded _ _ _).1
  · exact (faceGrid_bounded _ _ _).2.1
  · exact (faceGrid_bounded _ _ _).2.2.1
  · exact (faceGrid_bounded _ _ _).2.2.2.1
  · exact (faceGrid_bounded _ _ _).2.2.2.2

/-- Witness for C1 at `ℚ`: a `2 × 2` face over the unit square. -/
theorem from_function_indices_lt_witness :
    ∃ f, Face.from_function (⟨0, 1, 0⟩ : V3 ℚ) ((0 : ℚ), 1) ((0 : ℚ), 1)
        ((2 : ℚ), 2) (fun _ _ => 0) = .ok f ∧
      f.vertices.length = 4 ∧
      (∀ e ∈ f.indices, e < f.vertices.length) ∧
      (∀ e ∈ f.edge_px, e < f.vertices.length) := by
  have hok := @from_function_eq_ok ℚ _ _ _ _ ⟨0, 1, 0⟩ ((0 : ℚ), 1) ((0 : ℚ), 1)
    ((2 : ℚ), 2) (fun _ _ => 0) (by norm_num [axisCount]) (by norm_num [axisCount])
  refine ⟨_, hok, ?_, ?_, ?_⟩
  · have := (from_function_indices_lt hok).1
    rw [this]
    norm_num [axisCount]
    decide
  · exact (from_function_indices_lt hok).2.1
  · exact (from_function_indices_lt hok).2.2.1

/-- **C10**: when the floored vertex count along x is exactly `1` (and the
z-count is nonzero), `Face::from_function` still returns `Ok`; the face has
`1 * n_z` vertices and an *empty* triangle index list, while the grid-spacing
denominator `n_x - 1` is `0`. -/
theorem from_function_one_wide_ok [RealOps K] [FloorRing K] [DecidableEq K]
    (up : V3 K) (domain_x domain_z resolution : K × K) (height : K → K → K)
    (h1 : axisCount domain_x resolution.1 = 1)
    (h2 : axisCount domain_z resolution.2 ≠ 0) :
    ∃ f, Face.from_function up domain_x domain_z resolution height = .ok f ∧
      f.vertices.length = 1 * axisCount domain_z resolution.2 ∧
      f.indices = [] ∧ axisCount domain_x resolution.1 - 1 = 0 := by
  refine ⟨_, from_function_eq_ok (by omega) h2, ?_, ?_, by omega⟩
  · show (faceGrid _ _ _).vertices.length = _
    rw [h1, faceGrid_vertices_length]
  · show (faceGrid _ _ _).indices = _
    rw [h1, faceGrid_one_wide]

/-! ### Helper lemmas about the merge pass of `Shape3::new` -/

/-- The `face_index_start` offsets produced by the merge loop from running
offset `s` (the `u16` wrapping accumulation of the face vertex counts). -/
def startsFrom : Nat → List (Face K) → List Nat
  | _, [] => []
  | s, face :: rest =>
    s :: startsFrom ((s + face.vertices.length % 65536) % 65536) rest

/-- The concatenated per-face index lists, each offset (in `u16` arithmetic)
by the running offset, as produced by the merge loop from offset `s`. -/
def indicesFrom : Nat → List (Face K) → List Nat
  | _, [] => []
  | s, face :: rest =>
    face.indices.map (fun index => (index + s) % 65536) ++
      indicesFrom ((s + face.vertices.length % 65536) % 65536) rest

/-- The final running offset after the merge loop. -/
def startAfter : Nat → List (Face K) → Nat
  | s, [] => s
  | s, face :: rest => startAfter ((s + face.vertices.length % 65536) % 65536) rest

theorem foldl_mergeStep_spec : ∀ (faces : List (Face K)) (st : MergeState K),
    faces.foldl mergeStep st =
      ⟨st.face_index_start ++ startsFrom st.start faces,
       st.vertices ++ faces.flatMap Face.vertices,
       st.indices ++ indicesFrom st.start faces,
       startAfter st.start faces⟩
  | [], st => by simp [startsFrom, indicesFrom, startAfter]
  | face :: rest, st => by
    rw [List.foldl_cons, foldl_mergeStep_spec rest]
    simp [mergeStep, startsFrom, indicesFrom, startAfter]

theorem mergeFaces_spec (faces : List (Face K)) :
    mergeFaces faces =
      ⟨startsFrom 0 faces, faces.flatMap Face.vertices, indicesFrom 0 faces,
       startAfter 0 faces⟩ := by
  unfold mergeFaces
  rw [foldl_mergeStep_spec]
  simp

theorem startsFrom_length : ∀ (s : Nat) (faces : List (Face K)),
    (startsFrom s faces).length = faces.length
  | _, [] => rfl
  | s, face :: rest => by
    simp only [startsFrom, List.length_cons, startsFrom_length]

theorem flatMap_vertices_length (faces : List (Face K)) :
    (faces.flatMap Face.vertices).length =
      (faces.map (fun f => f.vertices.length)).sum := by
  induction faces with
  | nil => rfl
  | cons f rest ih => simp [ih]

/-- **C7**: `Shape3::new` performs no total-vertex-count validation: even
when the summed vertex count exceeds `65536` it returns `Ok`, and the
per-face starting offsets and the offset global indices are computed in
16-bit arithmetic (`startsFrom`/`indicesFrom` reduce every offset and every
offset index `% 65536`, silently wrapping). -/
theorem shape3_new_no_overflow_check [RealOps K] (faces : List (Face K))
    (hbig : 65536 < (faces.map (fun f => f.vertices.length)).sum) :
    ∃ s, Shape3.new faces [] = some (.ok s) ∧
      s.vertices = faces.flatMap Face.vertices ∧
      s.vertices.length = (faces.map (fun f => f.vertices.length)).sum ∧
      (mergeFaces faces).face_index_start = startsFrom 0 faces ∧
      s.indices = indicesFrom 0 faces := by
  refine ⟨⟨(mergeFaces faces).vertices, (mergeFaces faces).indices⟩, rfl, ?_, ?_, ?_, ?_⟩
  · rw [mergeFaces_spec]
  · rw [mergeFaces_spec]
    exact flatMap_vertices_length faces
  · rw [mergeFaces_spec]
  · rw [mergeFaces_spec]

/-- A concrete rational vertex used by the witnesses. -/
def vertexQ : Vertex ℚ := ⟨⟨0, 0, 0⟩, ⟨0, 0, 0⟩, (0, 0)⟩

/-- A face with `70000` identical vertices and no indices, used to overflow
the 16-bit offset accumulator. -/
def bigFaceQ : Face ℚ :=
  ⟨List.replicate 70000 vertexQ, [], [], [], [], []⟩

/-- A one-vertex face whose single local index `0` gets the wrapped offset. -/
def smallFaceQ : Face ℚ :=
  ⟨[vertexQ], [0], [], [], [], []⟩

/-- Witness for C7 at `ℚ`: `70000 + 1` vertices; the second face's index `0`
is offset by `70000 % 65536 = 4464`, i.e. the `u16` offset has silently
wrapped. -/
theorem shape3_new_no_overflow_check_witness :
    65536 < ([bigFaceQ, smallFaceQ].map (fun f => f.vertices.length)).sum ∧
    ∃ s, Shape3.new [bigFaceQ, smallFaceQ] [] = some (.ok s) ∧
      s.vertices.length = 70001 ∧ s.indices = [4464] := by
  have hb : bigFaceQ.vertices.length = 70000 := by
    dsimp only [bigFaceQ]
    exact List.length_replicate _ _
  have hsum : ([bigFaceQ, smallFaceQ].map (fun f => f.vertices.length)).sum = 70001 := by
    simp only [List.map_cons, List.map_nil, List.sum_cons, List.sum_nil, hb]
    dsimp only [smallFaceQ]
    norm_num
  refine ⟨by rw [hsum]; omega, ?_⟩
  obtain ⟨s, h1, h2, h3, h4, h5⟩ :=
    shape3_new_no_overflow_check [bigFaceQ, smallFaceQ] (by rw [hsum]; omega)
  refine ⟨s, h1, by rw [h3, hsum], ?_⟩
  rw [h5]
  simp only [indicesFrom, hb]
  dsimp only [bigFaceQ, smallFaceQ]
  norm_num [indicesFrom]

theorem stitchStep_oob_lower [RealOps K] (starts : List Nat)
    (verts : List (Vertex K)) (jn : EdgeJoin) (st : StitchState)
    (h : starts[jn.lower_face_index]? = none) :
    stitchStep starts verts jn st = none := by
  unfold stitchStep
  rw [h]

theorem stitchStep_oob_higher [RealOps K] (starts : List Nat)
    (verts : List (Vertex K)) (jn : EdgeJoin) (st : StitchState)
    (h : starts[jn.higher_face_index]? = none) :
    stitchStep starts verts jn st = none := by
  cases hsl : starts[jn.lower_face_index]? with
  | none => exact stitchStep_oob_lower starts verts jn st hsl
  | some s_l =>
    cases hel : jn.edge_lower[st.i]? with
    | none =>
      unfold stitchStep
      rw [hsl, hel]
    | some e_l =>
      unfold stitchStep
      rw [hsl, hel, h]

theorem stitchStep_char [RealOps K] {starts : List Nat} {verts : List (Vertex K)}
    {jn : EdgeJoin} {st : StitchState} {s_l e_l s_h e_h : Nat} {v_i v_j : Vertex K}
    (hsl : starts[jn.lower_face_index]? = some s_l)
    (hel : jn.edge_lower[st.i]? = some e_l)
    (hsh : starts[jn.higher_face_index]? = some s_h)
    (heh : jn.edge_higher[st.j]? = some e_h)
    (hvi : verts[(s_l + e_l) % 65536]? = some v_i)
    (hvj : verts[(s_h + e_h) % 65536]? = some v_j) :
    stitchStep starts verts jn st =
      (stitchTri s_l s_h jn st ((s_l + e_l) % 65536) ((s_h + e_h) % 65536)).bind
        (stitchAdvance verts jn st s_l s_h v_i v_j) := by
  unfold stitchStep
  simp only [hsl, hel, hsh, heh]
  simp only [hvi, hvj]

theorem stitchTri_first {s_l s_h : Nat} {jn : EdgeJoin} {st : StitchState}
    {l_idx h_idx : Nat} (h : st.i + st.j = 0) :
    stitchTri s_l s_h jn st l_idx h_idx = some st.acc := by
  unfold stitchTri
  rw [if_neg (by omega)]
  rfl

theorem stitchTri_up {s_l s_h : Nat} {jn : EdgeJoin} {st : StitchState}
    {l_idx h_idx e_lp : Nat} (hpos : 0 < st.i + st.j) (hup : st.i_up = true)
    (hlp : jn.edge_lower[st.i - 1]? = some e_lp) :
    stitchTri s_l s_h jn st l_idx h_idx =
      some (st.acc ++ [h_idx, l_idx, (s_l + e_lp) % 65536]) := by
  unfold stitchTri
  rw [if_pos hpos, hup, if_pos rfl, hlp]
  rfl

theorem stitchTri_down {s_l s_h : Nat} {jn : EdgeJoin} {st : StitchState}
    {l_idx h_idx e_hp : Nat} (hpos : 0 < st.i + st.j) (hup : st.i_up = false)
    (hhp : jn.edge_higher[st.j - 1]? = some e_hp) :
    stitchTri s_l s_h jn st l_idx h_idx =
      some (st.acc ++ [h_idx, l_idx, (s_h + e_hp) % 65536]) := by
  unfold stitchTri
  rw [if_pos hpos, hup, if_neg (by simp), hhp]
  rfl

theorem stitchAdvance_last_i [RealOps K] {verts : List (Vertex K)}
    {jn : EdgeJoin} {st : StitchState} {s_l s_h : Nat} {v_i v_j : Vertex K}
    {acc : List Nat} (h : st.i = jn.edge_lower.length - 1) :
    stitchAdvance verts jn st s_l s_h v_i v_j acc =
      some ⟨st.i, st.j + 1, false, acc⟩ := by
  unfold stitchAdvance
  rw [if_pos h]
  rfl

theorem stitchAdvance_last_j [RealOps K] {verts : List (Vertex K)}
    {jn : EdgeJoin} {st : StitchState} {s_l s_h : Nat} {v_i v_j : Vertex K}
    {acc : List Nat} (h1 : st.i ≠ jn.edge_lower.length - 1)
    (h2 : st.j = jn.edge_higher.length - 1) :
    stitchAdvance verts jn st s_l s_h v_i v_j acc =
      some ⟨st.i + 1, st.j, true, acc⟩ := by
  unfold stitchAdvance
  rw [if_neg h1, if_pos h2]
  rfl

theorem stitchAdvance_mid [RealOps K] {verts : List (Vertex K)}
    {jn : EdgeJoin} {st : StitchState} {s_l s_h : Nat} {v_i v_j : Vertex K}
    {acc : List Nat} {e_ln e_hn : Nat} {v_i_next v_j_next : Vertex K}
    (h1 : st.i ≠ jn.edge_lower.length - 1)
    (h2 : st.j ≠ jn.edge_higher.length - 1)
    (hln : jn.edge_lower[st.i + 1]? = some e_ln)
    (hvin : verts[(s_l + e_ln) % 65536]? = some v_i_next)
    (hhn : jn.edge_higher[st.j + 1]? = some e_hn)
    (hvjn : verts[(s_h + e_hn) % 65536]? = some v_j_next) :
    stitchAdvance verts jn st s_l s_h v_i v_j acc =
      if magnitude (v_i.position - v_j_next.position) ≤
          magnitude (v_j.position - v_i_next.position) then
        some ⟨st.i, st.j + 1, false, acc⟩
      else
        some ⟨st.i + 1, st.j, true, acc⟩ := by
  unfold stitchAdvance
  rw [if_neg h1, if_neg h2]
  simp only [hln, hhn]
  simp only [hvin, hvjn]
  split <;> rfl

/-- Complete run of the stitching loop from a state that has already taken
its first step: every iteration succeeds and appends exactly one triangle
(three indices), each of whose corners is a translated index of one of the
two loops. -/
theorem stitchRun_ok [RealOps K] (starts : List Nat) (verts : List (Vertex K))
    (lower higher : List Nat) (lf hf s_l s_h : Nat)
    (hsl : starts[lf]? = some s_l) (hsh : starts[hf]? = some s_h)
    (hl0 : 1 ≤ lower.length) (hh0 : 1 ≤ higher.length)
    (hlow : ∀ e ∈ lower, (s_l + e) % 65536 < verts.length)
    (hhigh : ∀ e ∈ higher, (s_h + e) % 65536 < verts.length) :
    ∀ (fuel : Nat) (st : StitchState),
    st.i + st.j + fuel = lower.length + higher.length - 1 →
    st.i ≤ lower.length - 1 →
    (0 < fuel → st.j ≤ higher.length - 1) →
    (st.i_up = true → 1 ≤ st.i) →
    (st.i_up = false → 0 < st.i + st.j → 1 ≤ st.j) →
    ∃ st' : StitchState,
      stitchRun starts verts ⟨lower, lf, higher, hf⟩ fuel st = some st' ∧
      st'.acc.length + (if st.i + st.j = 0 ∧ 0 < fuel then 3 else 0) =
        st.acc.length + 3 * fuel ∧
      (∀ e ∈ st'.acc, e ∈ st.acc ∨ (∃ el ∈ lower, e = (s_l + el) % 65536) ∨
        (∃ eh ∈ higher, e = (s_h + eh) % 65536)) := by
  intro fuel
  induction fuel with
  | zero =>
    intro st _ _ _ _ _
    exact ⟨st, rfl, by simp, fun e he => Or.inl he⟩
  | succ m ih =>
    intro st hsum hile hjle hiup hjdown
    have hi_lt : st.i < lower.length := by omega
    have hj_lt : st.j < higher.length := by
      have := hjle (by omega)
      omega
    have hel : lower[st.i]? = some lower[st.i] := List.getElem?_eq_getElem hi_lt
    have heh : higher[st.j]? = some higher[st.j] := List.getElem?_eq_getElem hj_lt
    have hvi : ∃ v, verts[(s_l + lower[st.i]) % 65536]? = some v := by
      have := hlow _ (List.getElem_mem hi_lt)
      exact ⟨_, List.getElem?_eq_getElem this⟩
    have hvj : ∃ v, verts[(s_h + higher[st.j]) % 65536]? = some v := by
      have := hhigh _ (List.getElem_mem hj_lt)
      exact ⟨_, List.getElem?_eq_getElem this⟩
    obtain ⟨v_i, hvi⟩ := hvi
    obtain ⟨v_j, hvj⟩ := hvj
    have hchar : stitchStep starts verts ⟨lower, lf, higher, hf⟩ st =
        (stitchTri s_l s_h ⟨lower, lf, higher, hf⟩ st
            ((s_l + lower[st.i]) % 65536) ((s_h + higher[st.j]) % 65536)).bind
          (stitchAdvance verts ⟨lower, lf, higher, hf⟩ st s_l s_h v_i v_j) :=
      stitchStep_char hsl hel hsh heh hvi hvj
    -- the triangle appended at this step
    have htri : ∃ acc1,
        stitchTri s_l s_h ⟨lower, lf, higher, hf⟩ st
            ((s_l + lower[st.i]) % 65536) ((s_h + higher[st.j]) % 65536) =
          some acc1 ∧
        acc1.length + (if st.i + st.j = 0 then 3 else 0) = st.acc.length + 3 ∧
        (∀ e ∈ acc1, e ∈ st.acc ∨ (∃ el ∈ lower, e = (s_l + el) % 65536) ∨
          (∃ eh ∈ higher, e = (s_h + eh) % 65536)) := by
      by_cases hpos : 0 < st.i + st.j
      · refine ?_
        cases hup : st.i_up with
        | true =>
          have hi1 : 1 ≤ st.i := hiup hup
          have hprev : st.i - 1 < lower.length := by omega
          refine ⟨_, stitchTri_up hpos hup (List.getElem?_eq_getElem hprev),
            by rw [if_neg (by omega)]; simp, ?_⟩
          intro e he
          simp only [List.mem_append, List.mem_cons, List.not_mem_nil, or_false] at he
          rcases he with he | he | he | he
          · exact Or.inl he
          · exact Or.inr (Or.inr ⟨higher[st.j], List.getElem_mem hj_lt, he⟩)
          · exact Or.inr (Or.inl ⟨lower[st.i], List.getElem_mem hi_lt, he⟩)
          · exact Or.inr (Or.inl ⟨lower[st.i - 1], List.getElem_mem hprev, he⟩)
        | false =>
          have hj1 : 1 ≤ st.j := hjdown hup hpos
          have hprev : st.j - 1 < higher.length := by omega
          refine ⟨_, stitchTri_down hpos hup (List.getElem?_eq_getElem hprev),
            by rw [if_neg (by omega)]; simp, ?_⟩
          intro e he
          simp only [List.mem_append, List.mem_cons, List.not_mem_nil, or_false] at he
          rcases he with he | he | he | he
          · exact Or.inl he
          · exact Or.inr (Or.inr ⟨higher[st.j], List.getElem_mem hj_lt, he⟩)
          · exact Or.inr (Or.inl ⟨lower[st.i], List.getElem_mem hi_lt, he⟩)
          · exact Or.inr (Or.inr ⟨higher[st.j - 1], List.getElem_mem hprev, he⟩)
      · exact ⟨st.acc, stitchTri_first (by omega), by rw [if_pos (by omega)],
          fun e he => Or.inl he⟩
    obtain ⟨acc1, hacc1, hacc1len, hacc1mem⟩ := htri
    -- the advanced state at this step
    have hadv : ∃ st1 : StitchState,
        stitchAdvance verts ⟨lower, lf, higher, hf⟩ st s_l s_h v_i v_j acc1 =
          some st1 ∧
        st1.acc = acc1 ∧ st1.i + st1.j = st.i + st.j + 1 ∧
        st1.i ≤ lower.length - 1 ∧
        (0 < m → st1.j ≤ higher.length - 1) ∧
        (st1.i_up = true → 1 ≤ st1.i) ∧
        (st1.i_up = false → 0 < st1.i + st1.j → 1 ≤ st1.j) := by
      by_cases hli : st.i = lower.length - 1
      · refine ⟨⟨st.i, st.j + 1, false, acc1⟩, stitchAdvance_last_i hli, rfl,
          by dsimp only; omega, by dsimp only; omega, ?_, ?_, ?_⟩
        · intro _
          dsimp only
          omega
        · intro hx
          exact absurd hx (by simp)
        · intro _ _
          dsimp only
          omega
      · by_cases hlj : st.j = higher.length - 1
        · refine ⟨⟨st.i + 1, st.j, true, acc1⟩, stitchAdvance_last_j hli hlj, rfl,
            by dsimp only; omega, by dsimp only; omega, ?_, ?_, ?_⟩
          · intro _
            dsimp only
            omega
          · intro _
            dsimp only
            omega
          · intro hx
            exact absurd hx (by simp)
        · have hni : st.i + 1 < lower.length := by omega
          have hnj : st.j + 1 < higher.length := by omega
          have hvin : ∃ v, verts[(s_l + lower[st.i + 1]) % 65536]? = some v := by
            have := hlow _ (List.getElem_mem hni)
            exact ⟨_, List.getElem?_eq_getElem this⟩
          have hvjn : ∃ v, verts[(s_h + higher[st.j + 1]) % 65536]? = some v := by
            have := hhigh _ (List.getElem_mem hnj)
            exact ⟨_, List.getElem?_eq_getElem this⟩
          obtain ⟨v_in, hvin⟩ := hvin
          obtain ⟨v_jn, hvjn⟩ := hvjn
          have hmid : stitchAdvance verts ⟨lower, lf, higher, hf⟩ st s_l s_h
              v_i v_j acc1 =
                if magnitude (v_i.position - v_jn.position) ≤
                    magnitude (v_j.position - v_in.position) then
                  some ⟨st.i, st.j + 1, false, acc1⟩
                else
                  some ⟨st.i + 1, st.j, true, acc1⟩ :=
            stitchAdvance_mid hli hlj (List.getElem?_eq_getElem hni) hvin
              (List.getElem?_eq_getElem hnj) hvjn
          by_cases hcmp : magnitude (v_i.position - v_jn.position) ≤
              magnitude (v_j.position - v_in.position)
          · rw [if_pos hcmp] at hmid
            refine ⟨⟨st.i, st.j + 1, false, acc1⟩, hmid, rfl,
              by dsimp only; omega, by dsimp only; omega, ?_, ?_, ?_⟩
            · intro _
              dsimp only
              omega
            · intro hx
              exact absurd hx (by simp)
            · intro _ _
              dsimp only
              omega
          · rw [if_neg hcmp] at hmid
            refine ⟨⟨st.i + 1, st.j, true, acc1⟩, hmid, rfl,
              by dsimp only; omega, by dsimp only; omega, ?_, ?_, ?_⟩
            · intro _
              dsimp only
              omega
            · intro _
              dsimp only
              omega
            · intro hx
              exact absurd hx (by simp)
    obtain ⟨st1, hst1, hst1acc, hst1ij, hst1i, hst1j, hst1up, hst1down⟩ := hadv
    have hstep : stitchStep starts verts ⟨lower, lf, higher, hf⟩ st = some st1 := by
      rw [hchar, hacc1]
      exact hst1
    obtain ⟨st', hrun, hlen, hmem⟩ := ih st1 (by omega) hst1i hst1j hst1up hst1down
    refine ⟨st', ?_, ?_, ?_⟩
    · unfold stitchRun
      rw [hstep]
      exact hrun
    · rw [hst1acc] at hlen
      rw [if_neg (by omega)] at hlen
      by_cases hz : st.i + st.j = 0
      · rw [if_pos hz] at hacc1len
        rw [if_pos (And.intro hz (by omega))]
        omega
      · rw [if_neg hz] at hacc1len
        rw [if_neg (by omega)]
        omega
    · intro e he
      rcases hmem e he with he1 | he1
      · rw [hst1acc] at he1
        exact hacc1mem e he1
      · exact Or.inr he1

/-- A single join with non-empty loops and in-range translated indices
stitches successfully, producing exactly `l_n + h_n - 2` triangles whose
corners are translated loop indices. -/
theorem runJoin_ok [RealOps K] (starts : List Nat) (verts : List (Vertex K))
    (lower higher : List Nat) (lf hf s_l s_h : Nat)
    (hsl : starts[lf]? = some s_l) (hsh : starts[hf]? = some s_h)
    (hl0 : 1 ≤ lower.length) (hh0 : 1 ≤ higher.length)
    (hlow : ∀ e ∈ lower, (s_l + e) % 65536 < verts.length)
    (hhigh : ∀ e ∈ higher, (s_h + e) % 65536 < verts.length) :
    ∃ t : List Nat, runJoin starts verts ⟨lower, lf, higher, hf⟩ = some (.ok t) ∧
      t.length = 3 * (lower.length + higher.length - 2) ∧
      (∀ e ∈ t, (∃ el ∈ lower, e = (s_l + el) % 65536) ∨
        (∃ eh ∈ higher, e = (s_h + eh) % 65536)) := by
  obtain ⟨st', hrun, hlen, hmem⟩ :=
    stitchRun_ok starts verts lower higher lf hf s_l s_h hsl hsh hl0 hh0 hlow hhigh
      (lower.length + higher.length - 1) ⟨0, 0, false, []⟩
      (by dsimp only; omega) (by dsimp only; omega)
      (fun _ => by dsimp only; omega)
      (by intro hx; exact absurd hx (by simp))
      (by intro _ hx; dsimp only at hx; omega)
  refine ⟨st'.acc, ?_, ?_, ?_⟩
  · unfold runJoin
    rw [if_neg ?_]
    · dsimp only
      rw [hrun]
    · simp only [List.isEmpty_iff]
      push_neg
      exact ⟨List.length_pos.1 (by omega), List.length_pos.1 (by omega)⟩
  · have h30 : st'.acc.length + 3 =
        3 * (lower.length + higher.length - 1) := by
      have := hlen
      dsimp only at this
      rw [if_pos (And.intro rfl (by omega))] at this
      simpa using this
    omega
  · intro e he
    rcases hmem e he with he1 | he1
    · exact absurd he1 (List.not_mem_nil e)
    · exact he1

theorem runJoin_of_stitchStep_none [RealOps K] {starts : List Nat}
    {verts : List (Vertex K)} {a b : Nat} {t u : List Nat} {lf hf : Nat}
    (h : stitchStep starts verts ⟨a :: t, lf, b :: u, hf⟩ ⟨0, 0, false, []⟩ =
      none) :
    runJoin starts verts ⟨a :: t, lf, b :: u, hf⟩ = none := by
  have hfuel : (a :: t).length + (b :: u).length - 1 = t.length + u.length + 1 := by
    simp only [List.length_cons]
    omega
  unfold runJoin
  rw [if_neg (by simp)]
  simp only
  rw [hfuel]
  unfold stitchRun
  rw [h]
  rfl

/-- **C9**: `Shape3::new` never validates a join's face indices: a join with
non-empty loops whose `lower_face_index` or `higher_face_index` is out of
range hits an out-of-bounds lookup of the `face_index_start` table — a panic
(`none`), not the `Err` variant used for the other failure modes. -/
theorem shape3_new_oob_face_index_panics [RealOps K] (faces : List (Face K))
    (jn : EdgeJoin) (h1 : jn.edge_lower ≠ []) (h2 : jn.edge_higher ≠ [])
    (h3 : faces.length ≤ jn.lower_face_index ∨
      faces.length ≤ jn.higher_face_index) :
    Shape3.new faces [jn] = none := by
  obtain ⟨el, lf, eh, hf⟩ := jn
  have hslen : (mergeFaces faces).face_index_start.length = faces.length := by
    rw [mergeFaces_spec]
    exact startsFrom_length 0 faces
  cases el with
  | nil => simp at h1
  | cons a t =>
    cases eh with
    | nil => simp at h2
    | cons b u =>
      simp only at h3
      have hstep : stitchStep (mergeFaces faces).face_index_start
          (mergeFaces faces).vertices ⟨a :: t, lf, b :: u, hf⟩ ⟨0, 0, false, []⟩ =
            none := by
        rcases h3 with h3 | h3
        · exact stitchStep_oob_lower _ _ _ _ (List.getElem?_eq_none (hslen ▸ h3))
        · exact stitchStep_oob_higher _ _ _ _ (List.getElem?_eq_none (hslen ▸ h3))
      have hrun := runJoin_of_stitchStep_none hstep
      simp only [Shape3.new, joinsRun]
      rw [hrun]

/-- Witness for C9 at `ℚ`: an empty face list with a join referencing faces
`0` and `1`. -/
theorem shape3_new_oob_face_index_panics_witness :
    Shape3.new ([] : List (Face ℚ)) [⟨[0], 0, [0], 1⟩] = none :=
  shape3_new_oob_face_index_panics [] ⟨[0], 0, [0], 1⟩ (by simp) (by simp)
    (Or.inl (by simp))

/-- **C3**: a join processed by `Shape3::new` whose loops are non-empty (with
in-range face indices and loop entries) appends exactly
`3 * (l_n + h_n - 2)` indices — `l_n + h_n - 2` stitching triangles — and
`Shape3::new` fails with the error `"Received empty edge in EdgeJoin"` when a
processed join has an empty loop. -/
theorem stitch_count_and_empty_loop_error [RealOps K] :
    (∀ (starts : List Nat) (verts : List (Vertex K)) (jn : EdgeJoin)
      (s_l s_h : Nat),
      starts[jn.lower_face_index]? = some s_l →
      starts[jn.higher_face_index]? = some s_h →
      jn.edge_lower ≠ [] → jn.edge_higher ≠ [] →
      (∀ e ∈ jn.edge_lower, (s_l + e) % 65536 < verts.length) →
      (∀ e ∈ jn.edge_higher, (s_h + e) % 65536 < verts.length) →
      ∃ t, runJoin starts verts jn = some (.ok t) ∧
        t.length = 3 * (jn.edge_lower.length + jn.edge_higher.length - 2)) ∧
    (∀ (faces : List (Face K)) (jn : EdgeJoin) (rest : List EdgeJoin),
      jn.edge_lower = [] ∨ jn.edge_higher = [] →
      Shape3.new faces (jn :: rest) =
        some (.error "Received empty edge in EdgeJoin")) := by
  constructor
  · intro starts verts jn s_l s_h hsl hsh hl hh hlow hhigh
    obtain ⟨lower, lf, higher, hf⟩ := jn
    obtain ⟨t, h1, h2, _⟩ := runJoin_ok starts verts lower higher lf hf s_l s_h
      hsl hsh (List.length_pos.2 hl) (List.length_pos.2 hh) hlow hhigh
    exact ⟨t, h1, h2⟩
  · intro faces jn rest h
    have hje : runJoin (mergeFaces faces).face_index_start
        (mergeFaces faces).vertices jn =
          some (.error "Received empty edge in EdgeJoin") := by
      unfold runJoin
      rw [if_pos ?_]
      simp only [List.isEmpty_iff]
      tauto
    simp only [Shape3.new, joinsRun]
    rw [hje]

/-- Witness for C3 at `ℚ`: a 1-loop against a 2-loop stitches into one
triangle; an empty lower loop aborts `Shape3::new` with the error. -/
theorem stitch_count_and_empty_loop_error_witness :
    (∃ t, runJoin [0, 1] [vertexQ, vertexQ, vertexQ] ⟨[0], 0, [0, 1], 1⟩ =
      some (.ok t) ∧ t.length = 3) ∧
    Shape3.new ([] : List (Face ℚ)) [⟨[], 0, [0], 1⟩] =
      some (.error "Received empty edge in EdgeJoin") := by
  constructor
  · obtain ⟨t, h1, h2⟩ := (stitch_count_and_empty_loop_error (K := ℚ)).1 [0, 1]
      [vertexQ, vertexQ, vertexQ] ⟨[0], 0, [0, 1], 1⟩ 0 1 rfl rfl (by simp)
      (by simp) (by decide) (by decide)
    exact ⟨t, h1, by rw [h2]; rfl⟩
  · exact (stitch_count_and_empty_loop_error (K := ℚ)).2 [] ⟨[], 0, [0], 1⟩ []
      (Or.inl rfl)

theorem joinsRun_ok_decomp [RealOps K] (starts : List Nat)
    (verts : List (Vertex K)) :
    ∀ (joins : List EdgeJoin) (acc out : List Nat),
    joinsRun starts verts joins acc = some (.ok out) →
    ∃ parts : List (List Nat),
      out = acc ++ parts.flatten ∧
      List.Forall₂ (fun jn part => runJoin starts verts jn = some (.ok part))
        joins parts
  | [], acc, out, h => by
    refine ⟨[], ?_, List.Forall₂.nil⟩
    simp only [joinsRun, Option.some.injEq, Except.ok.injEq] at h
    simp [h]
  | jn :: rest, acc, out, h => by
    simp only [joinsRun] at h
    cases hrj : runJoin starts verts jn with
    | none =>
      rw [hrj] at h
      exact absurd h (by simp)
    | some r =>
      cases r with
      | error e =>
        rw [hrj] at h
        simp at h
      | ok t =>
        rw [hrj] at h
        obtain ⟨parts, hout, hfa⟩ := joinsRun_ok_decomp starts verts rest
          (acc ++ t) out h
        refine ⟨t :: parts, ?_, List.Forall₂.cons hrj hfa⟩
        rw [hout]
        simp

/-- **C2**: whenever `Shape3::new` returns `Ok`, the result's vertex list is
exactly the concatenation of the faces' vertex lists in face order (its
length is the sum of the face vertex counts — joins never append vertices),
and its index list is the offset concatenation of the per-face indices
(`indicesFrom 0`) followed by the stitching triangles of each join, in join
order. -/
theorem shape3_new_decomposition [RealOps K] (faces : List (Face K))
    (joins : List EdgeJoin) (s : Shape3 K)
    (h : Shape3.new faces joins = some (.ok s)) :
    s.vertices = faces.flatMap Face.vertices ∧
    s.vertices.length = (faces.map (fun f => f.vertices.length)).sum ∧
    ∃ parts : List (List Nat),
      s.indices = indicesFrom 0 faces ++ parts.flatten ∧
      List.Forall₂ (fun jn part =>
        runJoin (mergeFaces faces).face_index_start (mergeFaces faces).vertices
          jn = some (.ok part)) joins parts := by
  have hnew := h
  simp only [Shape3.new] at hnew
  cases hjr : joinsRun (mergeFaces faces).face_index_start
      (mergeFaces faces).vertices joins (mergeFaces faces).indices with
  | none =>
    rw [hjr] at hnew
    exact absurd hnew (by simp)
  | some r =>
    cases r with
    | error e =>
      rw [hjr] at hnew
      simp at hnew
    | ok idx =>
      rw [hjr] at hnew
      simp only [Option.some.injEq, Except.ok.injEq] at hnew
      obtain ⟨parts, hout, hfa⟩ := joinsRun_ok_decomp _ _ joins _ idx hjr
      refine ⟨?_, ?_, parts, ?_, hfa⟩
      · rw [← hnew, mergeFaces_spec]
      · rw [← hnew, mergeFaces_spec]
        exact flatMap_vertices_length faces
      · rw [← hnew]
        dsimp only
        rw [hout, mergeFaces_spec]

/-- Witness for C2 at `ℚ`: two one-vertex faces and one join of two 1-loops
(which stitches zero triangles). -/
theorem shape3_new_decomposition_witness :
    ∃ (s : Shape3 ℚ) (parts : List (List Nat)),
      Shape3.new [smallFaceQ, smallFaceQ] [⟨[0], 0, [0], 1⟩] = some (.ok s) ∧
      s.vertices = [smallFaceQ, smallFaceQ].flatMap Face.vertices ∧
      s.vertices.length =
        ([smallFaceQ, smallFaceQ].map (fun f => f.vertices.length)).sum ∧
      s.indices = indicesFrom 0 [smallFaceQ, smallFaceQ] ++ parts.flatten := by
  have h : Shape3.new [smallFaceQ, smallFaceQ] [⟨[0], 0, [0], 1⟩] =
      some (.ok ⟨[vertexQ, vertexQ], [0, 1]⟩) := by rfl
  obtain ⟨h1, h2, parts, h3, _⟩ :=
    shape3_new_decomposition [smallFaceQ, smallFaceQ] [⟨[0], 0, [0], 1⟩] _ h
  exact ⟨_, parts, h, h1, h2, h3⟩

/-- Concrete evaluation of the generation loop on a `2 × 2` grid: the index
bookkeeping is independent of the vertex payload, so it reduces to literals
for any vertex function. -/
theorem faceGrid_two (v : Nat → Nat → Vertex K) :
    (faceGrid 2 2 v).indices = [1, 0, 2, 2, 3, 1] ∧
    (faceGrid 2 2 v).edge_px = [3, 1] ∧
    (faceGrid 2 2 v).edge_nx = [0, 2] ∧
    (faceGrid 2 2 v).vertices = [v 0 0, v 1 0, v 0 1, v 1 1] :=
  ⟨rfl, rfl, rfl, rfl⟩

theorem buildFace_char [RealOps K] [FloorRing K] [DecidableEq K]
    (up : V3 K) (dx dz res : K × K) (hgt : K → K → K)
    (h1 : axisCount dx res.1 = 2) (h2 : axisCount dz res.2 = 2) :
    (buildFace up dx dz res hgt).indices = [1, 0, 2, 2, 3, 1] ∧
    (buildFace up dx dz res hgt).edge_px = [3, 1] ∧
    (buildFace up dx dz res hgt).edge_nx = [0, 2] ∧
    (buildFace up dx dz res hgt).vertices.length = 4 := by
  refine ⟨?_, ?_, ?_, ?_⟩
  · show (faceGrid (axisCount dx res.1) (axisCount dz res.2) _).indices = _
    rw [h1, h2]
    exact (faceGrid_two _).1
  · show (faceGrid (axisCount dx res.1) (axisCount dz res.2) _).edge_px = _
    rw [h1, h2]
    exact (faceGrid_two _).2.1
  · show (faceGrid (axisCount dx res.1) (axisCount dz res.2) _).edge_nx = _
    rw [h1, h2]
    exact (faceGrid_two _).2.2.1
  · show (faceGrid (axisCount dx res.1) (axisCount dz res.2) _).vertices.length = _
    rw [h1, h2, faceGrid_vertices_length]

/-- **C8**: end-to-end, at the real-number idealisation: a flat `2 × 2` face
over `(-0.5, 0.5) × (-0.5, 0.5)` with `up = (0,1,0)` has `4` vertices and `6`
indices; assembling two copies with one join pairing the 2-element `edge_px`
loop of face `0` with the 2-element `edge_nx` loop of face `1` yields `8`
vertices and `18` indices — the `12` offset face indices followed by
`(2+2-2)*3 = 6` stitch indices — every one of them `< 8`. -/
theorem end_to_end_two_faces :
    ∃ (f : Face ℝ) (s : Shape3 ℝ) (t : List Nat),
      Face.from_function (⟨0, 1, 0⟩ : V3 ℝ) (-(1/2 : ℝ), 1/2)
          (-(1/2 : ℝ), 1/2) ((2 : ℝ), 2) (fun _ _ => 0) = .ok f ∧
      f.vertices.length = 4 ∧ f.indices.length = 6 ∧
      f.edge_px.length = 2 ∧ f.edge_nx.length = 2 ∧
      Shape3.new [f, f] [⟨f.edge_px, 0, f.edge_nx, 1⟩] = some (.ok s) ∧
      s.vertices.length = 8 ∧
      s.indices = [1, 0, 2, 2, 3, 1, 5, 4, 6, 6, 7, 5] ++ t ∧
      t.length = 6 ∧ s.indices.length = 18 ∧
      (∀ e ∈ s.indices, e < 8) := by
  have hax1 : axisCount (-(1/2 : ℝ), 1/2) (((2 : ℝ), (2 : ℝ)) : ℝ × ℝ).1 = 2 := by
    norm_num [axisCount]
    decide
  have hax2 : axisCount (-(1/2 : ℝ), 1/2) (((2 : ℝ), (2 : ℝ)) : ℝ × ℝ).2 = 2 := by
    norm_num [axisCount]
    decide
  obtain ⟨hidx, hpx, hnx, hlen4⟩ := buildFace_char (⟨0, 1, 0⟩ : V3 ℝ)
    (-(1/2 : ℝ), 1/2) (-(1/2 : ℝ), 1/2) ((2 : ℝ), 2) (fun _ _ => 0) hax1 hax2
  set f : Face ℝ := buildFace (⟨0, 1, 0⟩ : V3 ℝ) (-(1/2 : ℝ), 1/2)
    (-(1/2 : ℝ), 1/2) ((2 : ℝ), 2) (fun _ _ => 0) with hfdef
  have hok : Face.from_function (⟨0, 1, 0⟩ : V3 ℝ) (-(1/2 : ℝ), 1/2)
      (-(1/2 : ℝ), 1/2) ((2 : ℝ), 2) (fun _ _ => 0) = .ok f :=
    from_function_eq_ok (by rw [hax1]; omega) (by rw [hax2]; omega)
  -- merge characterisation
  have hstarts : (mergeFaces [f, f]).face_index_start = [0, 4] := by
    rw [mergeFaces_spec]
    simp [startsFrom, hlen4]
  have hverts : (mergeFaces [f, f]).vertices.length = 8 := by
    rw [mergeFaces_spec]
    dsimp only
    rw [flatMap_vertices_length]
    simp [hlen4]
  have hmergeIdx : (mergeFaces [f, f]).indices =
      [1, 0, 2, 2, 3, 1, 5, 4, 6, 6, 7, 5] := by
    rw [mergeFaces_spec]
    dsimp only
    simp only [indicesFrom, hidx, hlen4]
    norm_num
  -- the stitch
  have hlow : ∀ e ∈ [3, 1], (0 + e) % 65536 < (mergeFaces [f, f]).vertices.length := by
    intro e hel
    simp only [List.mem_cons, List.not_mem_nil, or_false] at hel
    rw [hverts]
    rcases hel with h | h <;> subst h <;> norm_num
  have hhigh : ∀ e ∈ [0, 2], (4 + e) % 65536 < (mergeFaces [f, f]).vertices.length := by
    intro e heh
    simp only [List.mem_cons, List.not_mem_nil, or_false] at heh
    rw [hverts]
    rcases heh with h | h <;> subst h <;> norm_num
  obtain ⟨t, hrj, htlen, htmem⟩ := runJoin_ok
    (mergeFaces [f, f]).face_index_start (mergeFaces [f, f]).vertices
    [3, 1] [0, 2] 0 1 0 4 (by rw [hstarts]; rfl) (by rw [hstarts]; rfl)
    (by simp) (by simp) hlow hhigh
  have hnew : Shape3.new [f, f] [⟨[3, 1], 0, [0, 2], 1⟩] =
      some (.ok ⟨(mergeFaces [f, f]).vertices,
        (mergeFaces [f, f]).indices ++ t⟩) := by
    simp only [Shape3.new, joinsRun]
    rw [hrj]
  refine ⟨f, ⟨(mergeFaces [f, f]).vertices, (mergeFaces [f, f]).indices ++ t⟩,
    t, hok, hlen4, by rw [hidx]; rfl, by rw [hpx]; rfl, by rw [hnx]; rfl,
    ?_, hverts, ?_, ?_, ?_, ?_⟩
  · rw [hpx, hnx]
    exact hnew
  · dsimp only
    rw [hmergeIdx]
  · simpa using htlen
  · dsimp only
    rw [hmergeIdx]
    simp only [List.length_append]
    rw [htlen]
    rfl
  · intro e he
    dsimp only at he
    rcases List.mem_append.1 he with he | he
    · rw [hmergeIdx] at he
      simp only [List.mem_cons, List.not_mem_nil, or_false] at he
      rcases he with h | h | h | h | h | h | h | h | h | h | h | h <;> omega
    · rcases htmem e he with ⟨el, hel, hee⟩ | ⟨eh, heh, hee⟩
      · simp only [List.mem_cons, List.not_mem_nil, or_false] at hel
        rcases hel with h | h <;> subst h <;> rw [hee] <;> norm_num
      · simp only [List.mem_cons, List.not_mem_nil, or_false] at heh
        rcases heh with h | h <;> subst h <;> rw [hee] <;> norm_num

/-- Witness for C10 at `ℚ`: x-domain `(0,1)` at resolution `1` floors to one
vertex; z-domain `(0,1)` at resolution `3` gives `3` rows. -/
theorem from_function_one_wide_ok_witness :
    ∃ f, Face.from_function (⟨0, 1, 0⟩ : V3 ℚ) ((0 : ℚ), 1) ((0 : ℚ), 1)
        ((1 : ℚ), 3) (fun _ _ => 0) = .ok f ∧
      f.vertices.length = 1 * axisCount ((0 : ℚ), 1) (((1 : ℚ), 3) : ℚ × ℚ).2 ∧
      f.indices = [] ∧ axisCount ((0 : ℚ), 1) (((1 : ℚ), 3) : ℚ × ℚ).1 - 1 = 0 :=
  from_function_one_wide_ok (⟨0, 1, 0⟩ : V3 ℚ) ((0 : ℚ), 1) ((0 : ℚ), 1)
    ((1 : ℚ), 3) (fun _ _ => 0) (by norm_num [axisCount]) (by norm_num [axisCount])


/-! ### Claim theorems: axis alignment and normal estimation (over ℝ) -/

theorem V3.add_def (a b : V3 K) : a + b = ⟨a.x + b.x, a.y + b.y, a.z + b.z⟩ := rfl

theorem V3.neg_def (a : V3 K) : -a = ⟨-a.x, -a.y, -a.z⟩ := rfl

theorem V3.sub_def (a b : V3 K) : a - b = ⟨a.x - b.x, a.y - b.y, a.z - b.z⟩ := rfl

theorem V3.smul_def (c : K) (a : V3 K) : c • a = ⟨c * a.x, c * a.y, c * a.z⟩ := rfl

theorem normalize_of_unit (v : V3 ℝ) (h : dot v v = 1) : normalize v = v := by
  unfold normalize magnitude
  rw [h]
  have h1 : RealOps.sqrt (1 : ℝ) = 1 := Real.sqrt_one
  rw [h1, V3.smul_def]
  ext <;> simp

theorem dot_neg_neg (a : V3 K) : dot (-a) (-a) = dot a a := by
  simp only [dot, V3.neg_def]
  ring

theorem dot_neg_left (a b : V3 K) : dot (-a) b = -(dot a b) := by
  simp only [dot, V3.neg_def]
  ring

/-- A 180° rotation about `cross v w` (any `w`) maps `v` to `-v`: with
`sin π = 0`, `cos π = -1` the matrix is `2·uuᵀ - I`, and `u ∙ v = 0` is the
vanishing scalar triple product, a polynomial identity. -/
theorem from_axis_angle_pi_mulVec (v w : V3 ℝ) :
    (M3.from_axis_angle (cross v w) (RealOps.pi : ℝ)).mulVec v = -v := by
  have hs : (RealOps.sin (RealOps.pi : ℝ) : ℝ) = 0 := Real.sin_pi
  have hc : (RealOps.cos (RealOps.pi : ℝ) : ℝ) = -1 := Real.cos_pi
  unfold M3.from_axis_angle M3.mulVec
  rw [hs, hc]
  simp only [cross, V3.smul_def, V3.add_def, V3.neg_def]
  ext <;> dsimp only <;> ring

/-- **C5**: for every normalized `original`, `rotate_to_axis(original,
original)` is the identity matrix, and `rotate_to_axis(-original, original) *
original = -original` (the antipodal branch builds a 180° rotation about an
axis orthogonal to `original`, so the product is `-original` for every
normalized `original`). -/
theorem rotate_to_axis_identity_and_antipodal (original : V3 ℝ)
    (h : dot original original = 1) :
    rotate_to_axis original original = M3.id ∧
    (rotate_to_axis (-original) original).mulVec original = -original := by
  have hnorm : normalize original = original := normalize_of_unit original h
  have hnormneg : normalize (-original) = -original :=
    normalize_of_unit (-original) (by rw [dot_neg_neg]; exact h)
  have hvne : ¬(original = -original) := by
    intro he
    have h2 : dot (-original) original = 1 := by rw [← he]; exact h
    rw [dot_neg_left] at h2
    have h3 : dot original original = -1 := by linarith
    rw [h] at h3
    norm_num at h3
  constructor
  · unfold rotate_to_axis
    rw [hnorm, if_neg hvne, if_pos rfl]
  · unfold rotate_to_axis
    rw [hnormneg, hnorm, if_pos rfl]
    exact from_axis_angle_pi_mulVec original _

/-- Witness for C5 at `original = (0, 1, 0)`. -/
theorem rotate_to_axis_identity_and_antipodal_witness :
    dot (⟨0, 1, 0⟩ : V3 ℝ) ⟨0, 1, 0⟩ = 1 ∧
    rotate_to_axis (⟨0, 1, 0⟩ : V3 ℝ) ⟨0, 1, 0⟩ = M3.id ∧
    (rotate_to_axis (-(⟨0, 1, 0⟩ : V3 ℝ)) ⟨0, 1, 0⟩).mulVec ⟨0, 1, 0⟩ =
      -(⟨0, 1, 0⟩ : V3 ℝ) := by
  have h : dot (⟨0, 1, 0⟩ : V3 ℝ) ⟨0, 1, 0⟩ = 1 := by
    simp [dot]
  exact ⟨h, (rotate_to_axis_identity_and_antipodal ⟨0, 1, 0⟩ h).1,
    (rotate_to_axis_identity_and_antipodal ⟨0, 1, 0⟩ h).2⟩

/-- Counterexample to **C6** as stated: for the affine height `f(x,z) = x`
the code computes the halved slope `1/2`, not the exact slope `1` a central
difference at step `H` would give, and for the flat height the returned
normal `(0, 1, 0)` is the *negation* of the normalized cross product of the
claim's two tangent vectors, which is `(0, -1, 0)`. -/
theorem approximate_normal_claim_counterexample :
    dy_dx (fun x _ => x) ((0 : ℝ), 0) = 1 / 2 ∧ ¬((1 : ℝ) / 2 = 1) ∧
    approximate_normal (fun _ _ => (0 : ℝ)) (0, 0) = ⟨0, 1, 0⟩ ∧
    normalize (cross (⟨1, dy_dx (fun _ _ => (0 : ℝ)) (0, 0), 0⟩ : V3 ℝ)
      ⟨0, dy_dz (fun _ _ => (0 : ℝ)) (0, 0), 1⟩) = ⟨0, -1, 0⟩ ∧
    ¬((⟨0, 1, 0⟩ : V3 ℝ) = ⟨0, -1, 0⟩) := by
  have hdx0 : dy_dx (fun _ _ => (0 : ℝ)) (0, 0) = 0 := by
    simp [dy_dx]
  have hdz0 : dy_dz (fun _ _ => (0 : ℝ)) (0, 0) = 0 := by
    simp [dy_dz]
  refine ⟨?_, by norm_num, ?_, ?_, ?_⟩
  · simp only [dy_dx, Hstep]
    norm_num
  · unfold approximate_normal
    rw [hdx0, hdz0]
    dsimp only
    have hcr : cross (⟨1, 0, 0⟩ : V3 ℝ) (-(⟨0, 0, 1⟩ : V3 ℝ)) = ⟨0, 1, 0⟩ := by
      simp only [cross, V3.neg_def]
      ext <;> norm_num
    rw [hcr]
    exact normalize_of_unit _ (by simp [dot])
  · rw [hdx0, hdz0]
    have hcr : cross (⟨1, 0, 0⟩ : V3 ℝ) (⟨0, 0, 1⟩ : V3 ℝ) = ⟨0, -1, 0⟩ := by
      simp only [cross]
      ext <;> norm_num
    rw [hcr]
    exact normalize_of_unit _ (by simp [dot])
  · intro he
    have := congrArg V3.y he
    norm_num at this

/-- **C6** (amended): the `dy_dx`/`dy_dz` estimates equal *half* the exact
slope for affine height functions (the code divides the `±H/2` central
difference by `2H` instead of `H`), and the returned normal is the normalized
cross product of `(1, dy_dx, 0)` with the *negated* `(0, dy_dz, 1)`, i.e.
`normalize (-(a/2), 1, -(b/2))` for the affine height `a*x + b*z + c`. -/
theorem approximate_normal_halved_gradient (a b c x z : ℝ) :
    dy_dx (fun u v => a * u + b * v + c) (x, z) = a / 2 ∧
    dy_dz (fun u v => a * u + b * v + c) (x, z) = b / 2 ∧
    approximate_normal (fun u v => a * u + b * v + c) (x, z) =
      normalize ⟨-(a / 2), 1, -(b / 2)⟩ := by
  have h1 : dy_dx (fun u v => a * u + b * v + c) (x, z) = a / 2 := by
    simp only [dy_dx, Hstep]
    field_simp
    ring
  have h2 : dy_dz (fun u v => a * u + b * v + c) (x, z) = b / 2 := by
    simp only [dy_dz, Hstep]
    field_simp
    ring
  refine ⟨h1, h2, ?_⟩
  unfold approximate_normal
  rw [h1, h2]
  dsimp only
  simp only [cross, V3.neg_def]
  ext <;> dsimp only <;> ring


end Rover
